import Mathlib

/-!
Verification of the filesystem-compatibility transfer engine in
`src/filename-sanitizer.py`.

The embedding is shallow: the per-filesystem allowed-character sets
(`FILESYSTEMS`, source lines 19-46) become boolean predicates on `Char`,
the pure sanitizer (`sanitize_filename`, lines 49-63) becomes a function
on `List Char`, and the discovery / transfer loops of `main`
(lines 174-185 and 230-273) become explicit state-passing functions over
a `walk` value that records, for each directory, whether its destination
mkdir succeeds and, for each file, its name, size, and whether its
`stat` and its copy/move primitive succeed.  An uncaught exception in
the transfer pass (the unguarded `mkdir` at line 237) is modelled as an
`Except.error` carrying the state at the moment of the abort.
-/

namespace FilenameSanitizer

/-- The nine characters excluded from the printable-ASCII range for the
FAT32 / exFAT / NTFS profiles (source lines 23, 28, 33). -/
def winDisallowed : List Char := ['<', '>', ':', '"', '/', '\\', '|', '?', '*']

/-- Membership in the FAT32 allowed set: `chr(i)` for `i` in `range(32, 127)`
not among the nine disallowed characters (source lines 20-24). -/
def fat32Allowed (c : Char) : Bool :=
  decide (32 ≤ c.toNat) && decide (c.toNat < 127) && !(winDisallowed.contains c)

/-- Membership in the exFAT allowed set (source lines 25-29); the same
comprehension as FAT32. -/
def exfatAllowed (c : Char) : Bool :=
  decide (32 ≤ c.toNat) && decide (c.toNat < 127) && !(winDisallowed.contains c)

/-- Membership in the NTFS allowed set (source lines 30-34); the same
comprehension as FAT32. -/
def ntfsAllowed (c : Char) : Bool :=
  decide (32 ≤ c.toNat) && decide (c.toNat < 127) && !(winDisallowed.contains c)

/-- Membership in the ext4 allowed set: `chr(i)` for `i` in `range(1, 127)`
other than the slash (source lines 35-39). -/
def ext4Allowed (c : Char) : Bool :=
  decide (1 ≤ c.toNat) && decide (c.toNat < 127) && c != '/'

/-- Membership in the HFS+ allowed set: `chr(i)` for `i` in `range(1, 127)`
other than the colon (source lines 40-44). -/
def hfsPlusAllowed (c : Char) : Bool :=
  decide (1 ≤ c.toNat) && decide (c.toNat < 127) && c != ':'

/-- The `FILESYSTEMS` table (source lines 19-46): filesystem name paired
with the membership predicate of its allowed-character set. -/
def FILESYSTEMS : List (String × (Char → Bool)) :=
  [("FAT32", fat32Allowed), ("exFAT", exfatAllowed), ("NTFS", ntfsAllowed),
   ("ext4", ext4Allowed), ("HFS+", hfsPlusAllowed)]

/-- The loop body of `sanitize_filename` (source lines 54-61): walk the
characters, keeping a legal character and substituting an underscore for
an illegal one, while carrying the `changed` flag that is set exactly when
a substitution happens. -/
def sanitizeLoop (allowed_chars : Char → Bool) : List Char → List Char × Bool
  | [] => ([], false)
  | ch :: rest =>
    let r := sanitizeLoop allowed_chars rest
    if allowed_chars ch then (ch :: r.1, r.2) else ('_' :: r.1, true)

/-- `sanitize_filename(original, allowed_chars)` (source lines 49-63):
the function runs the substitution loop and returns the sanitized name
only, discarding the internally computed `changed` flag (line 63). -/
def sanitize_filename (original : List Char) (allowed_chars : Char → Bool) : List Char :=
  (sanitizeLoop allowed_chars original).1

/-- An allowed set under which only the letter a is legal; in particular
the underscore itself is illegal.  Used to separate the internally
computed `changed` flag from the output-differs-from-input test. -/
def onlyLetterA : Char → Bool := fun c => c == 'a'

/-- One discovered file: its name, its on-disk byte size, whether `stat`
succeeds on it (the tree is treated as a snapshot, so the discovery pass
at lines 180-185 and the transfer pass at lines 250-253 observe the same
outcome), and whether the copy/move primitive succeeds on it
(lines 255-266). -/
structure FileInfo where
  name : List Char
  size : Nat
  statOk : Bool
  transferOk : Bool
deriving DecidableEq, Repr

/-- One directory yielded by `os.walk`: its relative path under the
source root (a list of raw path components), whether the mirroring
`mkdir` of line 237 succeeds, and its files in listing order. -/
structure DirEntry where
  relPath : List (List Char)
  mkdirOk : Bool
  files : List FileInfo
deriving DecidableEq, Repr

/-- A source file is identified by its directory's relative path and its
original filename. -/
abbrev SrcId := List (List Char) × List Char

/-- The user-visible notices the transfer loop prints: the rename notice
of line 246, the failure notice of lines 259 and 265, the per-file
progress update of line 269 carrying the file's size, and the Move-to-Copy
switch warning of line 168. -/
inductive Event where
  | renameNotice : List Char → List Char → Event
  | errorNotice : SrcId → Event
  | progressUpdate : Nat → Event
  | switchNotice : Event
deriving DecidableEq, Repr

/-- The operation chosen at lines 152-163. -/
inductive Op where
  | copy : Op
  | move : Op
deriving DecidableEq, Repr

/-- The mutable state of the transfer pass: the `transferred_files` and
`transferred_bytes` counters (lines 214-215), the notices printed so far,
the destination filesystem (an association list from written path to the
identity of the source file whose content it holds, most recent write
first), and the source files removed by a successful MOVE. -/
structure ExecState where
  transferredFiles : Nat
  transferredBytes : Nat
  events : List Event
  dest : List (List (List Char) × SrcId)
  removedSources : List SrcId
deriving DecidableEq, Repr

/-- The discovery pass (lines 174-185): count every file, and add its
`stat` size when `stat` succeeds, skipping the size otherwise.  Returns
`(total_files, total_bytes)`. -/
def scanLoop (walk : List DirEntry) : Nat × Nat :=
  walk.foldl
    (fun acc d =>
      d.files.foldl
        (fun a f => (a.1 + 1, a.2 + (if f.statOk then f.size else 0))) acc)
    (0, 0)

/-- The byte contribution of one file to the discovery total: its size if
`stat` succeeds, otherwise 0 (lines 181-185). -/
def fileBytes (f : FileInfo) : Nat := if f.statOk then f.size else 0

/-- Writing a file's content at a destination path: the newest write
shadows any earlier write to the same path (`shutil.copy2` / `shutil.move`
overwrite an existing destination file). -/
def destWrite (dest : List (List (List Char) × SrcId)) (path : List (List Char))
    (src : SrcId) : List (List (List Char) × SrcId) :=
  (path, src) :: dest

/-- Reading which source file's content a destination path holds, if any. -/
def destLookup (dest : List (List (List Char) × SrcId)) (path : List (List Char)) :
    Option SrcId :=
  (dest.find? (fun e => decide (e.1 = path))).map (fun e => e.2)

/-- The per-file body of the transfer loop (lines 239-269): increment
`transferred_files` (line 240, before the attempt); sanitize the filename
against the destination profile and print a rename notice when it
changed (lines 244-246); resolve the destination path (line 247); `stat`
the size, 0 on failure (lines 250-253); attempt the copy or move — on
failure print an error notice and continue with the next file
(lines 255-266), on success write the destination (removing the source
when moving) and add the size to `transferred_bytes` with a progress
update (lines 268-269). -/
def processFile (operation : Op) (dest_allowed : Char → Bool)
    (dest_subdir : List (List Char)) (src_dir : List (List Char))
    (st : ExecState) (f : FileInfo) : ExecState :=
  let st1 : ExecState := { st with transferredFiles := st.transferredFiles + 1 }
  let safe_name := sanitize_filename f.name dest_allowed
  let st2 : ExecState :=
    if safe_name ≠ f.name then
      { st1 with events := st1.events ++ [Event.renameNotice f.name safe_name] }
    else st1
  let dst_path := dest_subdir ++ [safe_name]
  let fsize := if f.statOk then f.size else 0
  if f.transferOk then
    { st2 with
      dest := destWrite st2.dest dst_path (src_dir, f.name),
      removedSources :=
        match operation with
        | Op.move => st2.removedSources ++ [(src_dir, f.name)]
        | Op.copy => st2.removedSources,
      transferredBytes := st2.transferredBytes + fsize,
      events := st2.events ++ [Event.progressUpdate fsize] }
  else
    { st2 with events := st2.events ++ [Event.errorNotice (src_dir, f.name)] }

/-- The per-directory body of the transfer loop (lines 232-269): the
destination subdirectory mirrors the raw relative path under the
destination root (line 236, no sanitization); if its `mkdir` (line 237)
fails, the exception is uncaught and the whole run aborts
(`Except.error` carrying the state at that moment); otherwise every file
of the directory is processed in order. -/
def processDir (operation : Op) (dest_allowed : Char → Bool)
    (dest_root : List (List Char)) (st : ExecState) (d : DirEntry) :
    Except ExecState ExecState :=
  let dest_subdir := dest_root ++ d.relPath
  if d.mkdirOk then
    Except.ok (d.files.foldl (processFile operation dest_allowed dest_subdir d.relPath) st)
  else
    Except.error st

/-- The transfer pass over the walk (lines 230-272): directories in
order, stopping with the propagated exception state if a directory's
`mkdir` fails. -/
def transferPass (operation : Op) (dest_allowed : Char → Bool)
    (dest_root : List (List Char)) (st : ExecState) :
    List DirEntry → Except ExecState ExecState
  | [] => Except.ok st
  | d :: rest =>
    match processDir operation dest_allowed dest_root st d with
    | Except.ok st2 => transferPass operation dest_allowed dest_root st2 rest
    | Except.error st2 => Except.error st2

/-- The operation-downgrade check of lines 166-169: a requested MOVE with
a non-writable source root is switched to COPY, with a warning notice;
any other combination is kept as requested with no notice. -/
def selectOperation (operation : Op) (source_writable : Bool) : Op × List Event :=
  match operation with
  | Op.move => if !source_writable then (Op.copy, [Event.switchNotice]) else (Op.move, [])
  | Op.copy => (Op.copy, [])

/-- The state at the start of the transfer pass (lines 214-215): zero
counters, no notices, nothing written, nothing removed. -/
def initState : ExecState := ⟨0, 0, [], [], []⟩

/-- A whole run from the operation prompt onwards: apply the downgrade
check of lines 166-169, then run the transfer pass with the effective
operation, the switch notice (if any) having been printed first. -/
def runTransfer (operation : Op) (source_writable : Bool)
    (dest_allowed : Char → Bool) (dest_root : List (List Char))
    (walk : List DirEntry) : Except ExecState ExecState :=
  let sel := selectOperation operation source_writable
  transferPass sel.1 dest_allowed dest_root { initState with events := sel.2 } walk

/-- The state carried by a run's outcome, whether it completed or was
aborted by an uncaught exception. -/
def resultState : Except ExecState ExecState → ExecState
  | Except.ok st => st
  | Except.error st => st

/-- Whether the run completed normally (reaching the final summary of
line 273) rather than dying on an uncaught exception. -/
def runOk : Except ExecState ExecState → Bool
  | Except.ok _ => true
  | Except.error _ => false

/-- Whether a notice is a failure notice. -/
def isErrorNotice : Event → Bool
  | Event.errorNotice _ => true
  | _ => false

/-- The intermediate states of the inner file loop: the state after each
file of the directory is processed. -/
def filesTrace (operation : Op) (dest_allowed : Char → Bool)
    (dest_subdir : List (List Char)) (src_dir : List (List Char))
    (st : ExecState) : List FileInfo → List ExecState
  | [] => []
  | f :: rest =>
    let st2 := processFile operation dest_allowed dest_subdir src_dir st f
    st2 :: filesTrace operation dest_allowed dest_subdir src_dir st2 rest

/-- The intermediate states of the whole transfer pass, in order: every
state reached after processing a file, cut off at the directory whose
`mkdir` fails (whose files are never reached). -/
def execTrace (operation : Op) (dest_allowed : Char → Bool)
    (dest_root : List (List Char)) (st : ExecState) :
    List DirEntry → List ExecState
  | [] => []
  | d :: rest =>
    let dest_subdir := dest_root ++ d.relPath
    if d.mkdirOk then
      filesTrace operation dest_allowed dest_subdir d.relPath st d.files ++
        execTrace operation dest_allowed dest_root
          (d.files.foldl (processFile operation dest_allowed dest_subdir d.relPath) st) rest
    else []

/-- A concrete run with a single directory holding two files: the first
file's copy primitive fails, the second succeeds.  Sizes 5 and 7, both
statable. -/
def c2Walk : List DirEntry :=
  [⟨[['d']], true,
    [⟨['a'], 5, true, false⟩,
     ⟨['b'], 7, true, true⟩]⟩]

/-- The filename `a:b.txt`. -/
def nameColon : List Char := ['a', ':', 'b', '.', 't', 'x', 't']

/-- The filename `a_b.txt`. -/
def nameUnder : List Char := ['a', '_', 'b', '.', 't', 'x', 't']

/-- A concrete run with one directory holding `a:b.txt` (3 bytes) and
`a_b.txt` (4 bytes); both sanitize to `a_b.txt` under FAT32 and both
copy primitives succeed. -/
def c3Walk : List DirEntry :=
  [⟨[], true,
    [⟨nameColon, 3, true, true⟩,
     ⟨nameUnder, 4, true, true⟩]⟩]

/-- A concrete run with two directories: the first directory's
destination `mkdir` fails, the second (holding one healthy 2-byte file)
would succeed. -/
def c7Walk : List DirEntry :=
  [⟨[['x']], false, [⟨['a'], 1, true, true⟩]⟩,
   ⟨[['y']], true, [⟨['b'], 2, true, true⟩]⟩]

/-- A concrete run whose single directory `d:` has a name illegal under
FAT32 and whose single file `a*` needs sanitization. -/
def c9Walk : List DirEntry :=
  [⟨[['d', ':']], true, [⟨['a', '*'], 5, true, true⟩]⟩]

theorem sanitizeLoop_nil (allowed_chars : Char → Bool) :
    sanitizeLoop allowed_chars [] = ([], false) := rfl

theorem sanitizeLoop_cons (allowed_chars : Char → Bool) (ch : Char) (rest : List Char) :
    sanitizeLoop allowed_chars (ch :: rest) =
      ((if allowed_chars ch then ch else '_') :: (sanitizeLoop allowed_chars rest).1,
        (!allowed_chars ch) || (sanitizeLoop allowed_chars rest).2) := by
  by_cases h : allowed_chars ch = true
  · simp [sanitizeLoop, h]
  · rw [Bool.not_eq_true] at h
    simp [sanitizeLoop, h]

theorem sanitize_filename_nil (allowed_chars : Char → Bool) :
    sanitize_filename [] allowed_chars = [] := rfl

theorem sanitize_filename_cons (allowed_chars : Char → Bool) (ch : Char) (rest : List Char) :
    sanitize_filename (ch :: rest) allowed_chars =
      (if allowed_chars ch then ch else '_') :: sanitize_filename rest allowed_chars := by
  simp [sanitize_filename, sanitizeLoop_cons]

/-- Claim C1: sanitization processes the characters of the name in order,
yielding an output of the same length whose i-th character is the i-th
input character when that character is legal under the profile and the
ASCII underscore when it is illegal. -/
theorem c1_sanitize_pointwise (original : List Char) (allowed_chars : Char → Bool) :
    (sanitize_filename original allowed_chars).length = original.length ∧
    ∀ i : Nat, (sanitize_filename original allowed_chars)[i]? =
      (original[i]?).map (fun ch => if allowed_chars ch then ch else '_') := by
  induction original with
  | nil => exact ⟨rfl, fun i => by simp [sanitize_filename_nil]⟩
  | cons ch rest ih =>
    refine ⟨?_, ?_⟩
    · simp [sanitize_filename_cons, ih.1]
    · intro i
      cases i with
      | zero => simp [sanitize_filename_cons]
      | succ j => simpa [sanitize_filename_cons] using ih.2 j

/-- Claim C6: sanitization is idempotent for every legality predicate,
whether or not the underscore itself is legal under it. -/
theorem c6_sanitize_idempotent (original : List Char) (allowed_chars : Char → Bool) :
    sanitize_filename (sanitize_filename original allowed_chars) allowed_chars =
      sanitize_filename original allowed_chars := by
  induction original with
  | nil => rfl
  | cons ch rest ih =>
    rw [sanitize_filename_cons, sanitize_filename_cons, ih]
    by_cases h : allowed_chars ch = true
    · simp [h]
    · rw [Bool.not_eq_true] at h
      simp only [h, if_false]
      by_cases h2 : allowed_chars '_' = true
      · simp [h2]
      · rw [Bool.not_eq_true] at h2
        simp [h2]

/-- Claim C5, counterexample: on the one-character name consisting of a
single underscore, under an allowed set that excludes the underscore, the
substitution loop of `sanitize_filename` sets its `changed` flag (an
underscore was substituted for an underscore) yet the sanitized name
equals the original, so `changed` is not equivalent to the sanitized name
differing from the original; moreover the function returns only the name,
never a pair. -/
theorem c5_counterexample :
    (sanitizeLoop onlyLetterA ['_']).2 = true ∧
      (sanitizeLoop onlyLetterA ['_']).1 = ['_'] ∧
      sanitize_filename ['_'] onlyLetterA = ['_'] := by
  refine ⟨?_, ?_, ?_⟩ <;> decide

theorem sanitizeLoop_changed_iff (allowed_chars : Char → Bool) (original : List Char) :
    (sanitizeLoop allowed_chars original).2 = true ↔
      ∃ ch, ch ∈ original ∧ allowed_chars ch = false := by
  induction original with
  | nil => simp [sanitizeLoop_nil]
  | cons ch rest ih =>
    rw [sanitizeLoop_cons]
    by_cases h : allowed_chars ch = true
    · simp only [h, Bool.not_true, Bool.false_or]
      rw [ih]
      constructor
      · rintro ⟨c, hc, hcf⟩
        exact ⟨c, List.mem_cons_of_mem ch hc, hcf⟩
      · rintro ⟨c, hc, hcf⟩
        rcases List.mem_cons.mp hc with rfl | hc2
        · rw [h] at hcf; cases hcf
        · exact ⟨c, hc2, hcf⟩
    · rw [Bool.not_eq_true] at h
      simp only [h, Bool.not_false, Bool.true_or, true_iff]
      exact ⟨ch, List.mem_cons_self ch rest, h⟩

/-- Claim C5, amended: `sanitize_filename` computes a (sanitizedName,
changed) pair internally but returns only the sanitized name, discarding
the flag (the caller re-derives the change by comparing the two names).
The internal flag is true iff at least one substitution occurred, i.e.
iff some character of the name lies outside the allowed set; this implies
but is not equivalent to the output differing from the input, because an
illegal underscore is substituted by an underscore.  Whenever the
underscore is itself legal — as in all five shipped profiles — the flag
is equivalent to the sanitized name differing from the original. -/
theorem c5_amended (original : List Char) (allowed_chars : Char → Bool) :
    sanitize_filename original allowed_chars = (sanitizeLoop allowed_chars original).1 ∧
    ((sanitizeLoop allowed_chars original).2 = true ↔
      ∃ ch, ch ∈ original ∧ allowed_chars ch = false) ∧
    (allowed_chars '_' = true →
      ((sanitizeLoop allowed_chars original).2 = true ↔
        sanitize_filename original allowed_chars ≠ original)) := by
  refine ⟨rfl, sanitizeLoop_changed_iff allowed_chars original, fun hu => ?_⟩
  induction original with
  | nil => simp [sanitizeLoop_nil, sanitize_filename_nil]
  | cons ch rest ih =>
    rw [sanitizeLoop_cons, sanitize_filename_cons]
    by_cases h : allowed_chars ch = true
    · simp only [h, Bool.not_true, Bool.false_or, if_true]
      rw [ih]
      constructor
      · intro hne hcon
        exact hne (List.cons.injEq ch _ ch rest ▸ hcon).2
      · intro hne hre
        exact hne (by rw [hre])
    · rw [Bool.not_eq_true] at h
      simp only [h, Bool.not_false, Bool.true_or, if_false, true_iff]
      intro hcon
      have hh : '_' = ch := (List.cons.injEq '_' _ ch rest ▸ hcon).1
      rw [← hh] at h
      rw [hu] at h
      cases h

/-- Claim C5, witness for the amended theorem at a concrete input:
sanitizing `a:b` against FAT32 (where the underscore is legal) yields a
changed flag equivalent to the output differing, and both hold. -/
theorem c5_amended_witness :
    ((sanitizeLoop fat32Allowed ['a', ':', 'b']).2 = true ↔
      sanitize_filename ['a', ':', 'b'] fat32Allowed ≠ ['a', ':', 'b']) ∧
    (sanitizeLoop fat32Allowed ['a', ':', 'b']).2 = true :=
  ⟨(c5_amended ['a', ':', 'b'] fat32Allowed).2.2 (by decide), by decide⟩

theorem sanitize_filename_mem (original : List Char) (allowed_chars : Char → Bool)
    (c : Char) (hc : c ∈ sanitize_filename original allowed_chars) :
    allowed_chars c = true ∨ c = '_' := by
  induction original with
  | nil => rw [sanitize_filename_nil] at hc; cases hc
  | cons ch rest ih =>
    rw [sanitize_filename_cons] at hc
    rcases List.mem_cons.mp hc with h | h
    · by_cases ha : allowed_chars ch = true
      · simp only [ha, if_true] at h
        exact Or.inl (h ▸ ha)
      · rw [Bool.not_eq_true] at ha
        simp only [ha, Bool.false_eq_true, if_false] at h
        exact Or.inr h
    · exact ih h

/-- Claim C10: every character of a sanitized name is either a member of
the allowed set or the underscore; the underscore belongs to the allowed
set of all five shipped profiles (FAT32, exFAT, NTFS, ext4, HFS+), so a
name sanitized against any shipped profile is entirely legal under it. -/
theorem c10_sanitized_name_legal :
    (∀ (original : List Char) (allowed_chars : Char → Bool) (c : Char),
      c ∈ sanitize_filename original allowed_chars → allowed_chars c = true ∨ c = '_') ∧
    (∀ p, p ∈ FILESYSTEMS → p.2 '_' = true) ∧
    (∀ p, p ∈ FILESYSTEMS → ∀ (original : List Char) (c : Char),
      c ∈ sanitize_filename original p.2 → p.2 c = true) := by
  have hu : ∀ p, p ∈ FILESYSTEMS → p.2 '_' = true := by
    intro p hp
    simp only [FILESYSTEMS, List.mem_cons, List.not_mem_nil, or_false] at hp
    rcases hp with rfl | rfl | rfl | rfl | rfl <;> decide
  refine ⟨sanitize_filename_mem, hu, fun p hp original c hc => ?_⟩
  rcases sanitize_filename_mem original p.2 c hc with h | rfl
  · exact h
  · exact hu p hp

/-- Claim C10, witness: under the FAT32 profile, the character kept from
sanitizing `a:` is legal-or-underscore, and the whole sanitized name
`a_` is entirely legal under FAT32. -/
theorem c10_witness :
    (fat32Allowed 'a' = true ∨ 'a' = '_') ∧
      ("FAT32", fat32Allowed).2 '_' = true ∧
      fat32Allowed '_' = true :=
  ⟨c10_sanitized_name_legal.1 ['a', ':'] fat32Allowed 'a' (by decide),
   c10_sanitized_name_legal.2.1 ("FAT32", fat32Allowed) (by simp [FILESYSTEMS]),
   c10_sanitized_name_legal.2.2 ("FAT32", fat32Allowed) (by simp [FILESYSTEMS])
     ['a', ':'] '_' (by decide)⟩

/-- Claim C2, evaluation at the failing input: on `c2Walk` the run
completes, the failed first file leaves the bytes tally unchanged, gets
an error notice, and the second file is still processed (its 7 bytes are
tallied and its progress update is emitted) — but `transferred_files`
ends at 2, not 1, because line 240 increments it before the attempt, so
the failed file does change the files-transferred tally. -/
theorem c2_files_tally_bug :
    runOk (transferPass Op.copy fat32Allowed [] initState c2Walk) = true ∧
    (resultState (transferPass Op.copy fat32Allowed [] initState c2Walk)).transferredFiles = 2 ∧
    (resultState (transferPass Op.copy fat32Allowed [] initState c2Walk)).transferredBytes = 7 ∧
    Event.errorNotice ([['d']], ['a']) ∈
      (resultState (transferPass Op.copy fat32Allowed [] initState c2Walk)).events ∧
    Event.progressUpdate 7 ∈
      (resultState (transferPass Op.copy fat32Allowed [] initState c2Walk)).events := by
  refine ⟨?_, ?_, ?_, ?_, ?_⟩ <;> decide

theorem processFile_success (operation : Op) (dest_allowed : Char → Bool)
    (dest_subdir src_dir : List (List Char)) (st : ExecState) (f : FileInfo)
    (hf : f.transferOk = true) :
    processFile operation dest_allowed dest_subdir src_dir st f =
      { transferredFiles := st.transferredFiles + 1,
        transferredBytes := st.transferredBytes + fileBytes f,
        events := (st.events ++
          (if sanitize_filename f.name dest_allowed ≠ f.name then
            [Event.renameNotice f.name (sanitize_filename f.name dest_allowed)] else [])) ++
          [Event.progressUpdate (fileBytes f)],
        dest := destWrite st.dest (dest_subdir ++ [sanitize_filename f.name dest_allowed])
          (src_dir, f.name),
        removedSources :=
          match operation with
          | Op.move => st.removedSources ++ [(src_dir, f.name)]
          | Op.copy => st.removedSources } := by
  by_cases hr : sanitize_filename f.name dest_allowed ≠ f.name <;>
    simp [processFile, hf, hr, fileBytes]

theorem processFile_failure (operation : Op) (dest_allowed : Char → Bool)
    (dest_subdir src_dir : List (List Char)) (st : ExecState) (f : FileInfo)
    (hf : f.transferOk = false) :
    processFile operation dest_allowed dest_subdir src_dir st f =
      { st with
        transferredFiles := st.transferredFiles + 1,
        events := (st.events ++
          (if sanitize_filename f.name dest_allowed ≠ f.name then
            [Event.renameNotice f.name (sanitize_filename f.name dest_allowed)] else [])) ++
          [Event.errorNotice (src_dir, f.name)] } := by
  by_cases hr : sanitize_filename f.name dest_allowed ≠ f.name <;>
    simp [processFile, hf, hr]

theorem transferPass_single (operation : Op) (dest_allowed : Char → Bool)
    (dest_root rel : List (List Char)) (st : ExecState) (files : List FileInfo) :
    transferPass operation dest_allowed dest_root st [⟨rel, true, files⟩] =
      Except.ok (files.foldl
        (processFile operation dest_allowed (dest_root ++ rel) rel) st) := by
  simp [transferPass, processDir]

/-- Claim C3, counterexample: on `c3Walk` no failure notice is ever
emitted, both files are counted as transferred (2 files, 3 + 4 bytes),
and the shared destination path `a_b.txt` ends up holding the content of
the later file `a_b.txt` — the earlier file's transferred content has
been silently overwritten, contradicting the claim that the later file
is reported as a collision failure and not transferred. -/
theorem c3_counterexample :
    ((resultState (transferPass Op.copy fat32Allowed [] initState c3Walk)).events.all
      (fun e => !(isErrorNotice e))) = true ∧
    (resultState (transferPass Op.copy fat32Allowed [] initState c3Walk)).transferredFiles = 2 ∧
    (resultState (transferPass Op.copy fat32Allowed [] initState c3Walk)).transferredBytes = 7 ∧
    destLookup (resultState (transferPass Op.copy fat32Allowed [] initState c3Walk)).dest
      [nameUnder] = some ([], nameUnder) := by
  refine ⟨?_, ?_, ?_, ?_⟩ <;> decide

/-- Claim C3, amended: the code performs no collision detection.  When
two source files of the same directory sanitize to the same destination
filename and both primitives succeed, no failure notice is emitted, both
files are counted as transferred, and the first file's destination path
holds the content of the later file — the earlier file's destination
content is silently overwritten. -/
theorem c3_amended (operation : Op) (dest_allowed : Char → Bool)
    (dest_root rel : List (List Char)) (f1 f2 : FileInfo)
    (h1 : f1.transferOk = true) (h2 : f2.transferOk = true)
    (hs : sanitize_filename f1.name dest_allowed = sanitize_filename f2.name dest_allowed) :
    ((resultState (transferPass operation dest_allowed dest_root initState
        [⟨rel, true, [f1, f2]⟩])).events.all (fun e => !(isErrorNotice e))) = true ∧
    (resultState (transferPass operation dest_allowed dest_root initState
        [⟨rel, true, [f1, f2]⟩])).transferredFiles = 2 ∧
    (resultState (transferPass operation dest_allowed dest_root initState
        [⟨rel, true, [f1, f2]⟩])).transferredBytes = fileBytes f1 + fileBytes f2 ∧
    destLookup (resultState (transferPass operation dest_allowed dest_root initState
        [⟨rel, true, [f1, f2]⟩])).dest
      ((dest_root ++ rel) ++ [sanitize_filename f1.name dest_allowed]) =
      some (rel, f2.name) := by
  rw [hs]
  rw [transferPass_single]
  simp only [List.foldl_cons, List.foldl_nil, resultState]
  rw [processFile_success operation dest_allowed (dest_root ++ rel) rel initState f1 h1]
  rw [processFile_success operation dest_allowed (dest_root ++ rel) rel _ f2 h2]
  refine ⟨?_, ?_, ?_, ?_⟩
  · simp only [initState]
    by_cases hr1 : sanitize_filename f1.name dest_allowed ≠ f1.name <;>
      by_cases hr2 : sanitize_filename f2.name dest_allowed ≠ f2.name <;>
        simp [hr1, hr2, isErrorNotice]
  · rfl
  · simp [initState]
  · simp [destLookup, destWrite, List.find?]

/-- Claim C3, witness for the amended theorem: the two concrete files
`a:b.txt` and `a_b.txt` of `c3Walk` collide under FAT32, the run emits
no failure notice, counts 2 files and 7 bytes, and the first file's
destination path holds the later file's content. -/
theorem c3_amended_witness :
    ((resultState (transferPass Op.copy fat32Allowed [] initState
        [⟨[], true, [⟨nameColon, 3, true, true⟩, ⟨nameUnder, 4, true, true⟩]⟩])).events.all
      (fun e => !(isErrorNotice e))) = true ∧
    (resultState (transferPass Op.copy fat32Allowed [] initState
        [⟨[], true, [⟨nameColon, 3, true, true⟩, ⟨nameUnder, 4, true, true⟩]⟩])).transferredFiles
      = 2 ∧
    (resultState (transferPass Op.copy fat32Allowed [] initState
        [⟨[], true, [⟨nameColon, 3, true, true⟩, ⟨nameUnder, 4, true, true⟩]⟩])).transferredBytes
      = fileBytes ⟨nameColon, 3, true, true⟩ + fileBytes ⟨nameUnder, 4, true, true⟩ ∧
    destLookup (resultState (transferPass Op.copy fat32Allowed [] initState
        [⟨[], true, [⟨nameColon, 3, true, true⟩, ⟨nameUnder, 4, true, true⟩]⟩])).dest
      (([] ++ []) ++ [sanitize_filename nameColon fat32Allowed]) =
      some ([], nameUnder) :=
  c3_amended Op.copy fat32Allowed [] [] ⟨nameColon, 3, true, true⟩ ⟨nameUnder, 4, true, true⟩
    rfl rfl (by decide)

/-- Claim C7, counterexample: on `c7Walk` the failed `mkdir` of the
first directory aborts the whole run — the run does not complete (no
summary is reached), and the file of the second, healthy directory is
never processed: the aborted state has zero files, zero bytes and no
notices, contradicting the claim that other directories are still
processed and the run still concludes with a summary. -/
theorem c7_counterexample :
    runOk (transferPass Op.copy fat32Allowed [] initState c7Walk) = false ∧
    (resultState (transferPass Op.copy fat32Allowed [] initState c7Walk)).transferredFiles = 0 ∧
    (resultState (transferPass Op.copy fat32Allowed [] initState c7Walk)).transferredBytes = 0 ∧
    (resultState (transferPass Op.copy fat32Allowed [] initState c7Walk)).events = [] := by
  refine ⟨?_, ?_, ?_, ?_⟩ <;> decide

/-- Claim C7, amended: the `mkdir` of line 237 is not guarded by any
exception handler, so the first directory whose destination subdirectory
cannot be created aborts the entire run at that point: the state is the
one accumulated over the preceding directories, the failing subtree's
files are not individually recorded as failed, every later directory is
left unprocessed, and no final summary is reached. -/
theorem c7_amended (operation : Op) (dest_allowed : Char → Bool)
    (dest_root : List (List Char)) (st : ExecState)
    (walk1 walk2 : List DirEntry) (d : DirEntry)
    (hok : ∀ e, e ∈ walk1 → e.mkdirOk = true) (hd : d.mkdirOk = false) :
    transferPass operation dest_allowed dest_root st (walk1 ++ d :: walk2) =
      Except.error
        (resultState (transferPass operation dest_allowed dest_root st walk1)) := by
  induction walk1 generalizing st with
  | nil =>
    simp only [List.nil_append, transferPass, processDir, hd, Bool.false_eq_true, if_false,
      resultState]
  | cons e rest ih =>
    have he : e.mkdirOk = true := hok e (List.mem_cons_self e rest)
    simp only [List.cons_append, transferPass, processDir, he, if_true]
    exact ih _ (fun x hx => hok x (List.mem_cons_of_mem e hx))

/-- Claim C7, witness for the amended theorem at a concrete input: with
one healthy directory before the failing one, the run aborts in the
state reached after the healthy directory. -/
theorem c7_amended_witness :
    transferPass Op.copy fat32Allowed [] initState
        ([⟨[['y']], true, [⟨['b'], 2, true, true⟩]⟩] ++
          ⟨[['x']], false, [⟨['a'], 1, true, true⟩]⟩ :: []) =
      Except.error
        (resultState (transferPass Op.copy fat32Allowed [] initState
          [⟨[['y']], true, [⟨['b'], 2, true, true⟩]⟩])) :=
  c7_amended Op.copy fat32Allowed [] initState
    [⟨[['y']], true, [⟨['b'], 2, true, true⟩]⟩] []
    ⟨[['x']], false, [⟨['a'], 1, true, true⟩]⟩
    (by decide) rfl

theorem processFile_removedSources_copy (dest_allowed : Char → Bool)
    (dest_subdir src_dir : List (List Char)) (st : ExecState) (f : FileInfo) :
    (processFile Op.copy dest_allowed dest_subdir src_dir st f).removedSources =
      st.removedSources := by
  cases hf : f.transferOk
  · rw [processFile_failure _ _ _ _ _ _ hf]
  · rw [processFile_success _ _ _ _ _ _ hf]

theorem foldl_removedSources_copy (dest_allowed : Char → Bool)
    (dest_subdir src_dir : List (List Char)) (files : List FileInfo) (st : ExecState) :
    (files.foldl (processFile Op.copy dest_allowed dest_subdir src_dir) st).removedSources =
      st.removedSources := by
  induction files generalizing st with
  | nil => rfl
  | cons f rest ih =>
    rw [List.foldl_cons, ih, processFile_removedSources_copy]

theorem transferPass_removedSources_copy (dest_allowed : Char → Bool)
    (dest_root : List (List Char)) (walk : List DirEntry) (st : ExecState) :
    (resultState (transferPass Op.copy dest_allowed dest_root st walk)).removedSources =
      st.removedSources := by
  induction walk generalizing st with
  | nil => rfl
  | cons d rest ih =>
    by_cases hd : d.mkdirOk = true
    · simp only [transferPass, processDir, hd, if_true]
      rw [ih, foldl_removedSources_copy]
    · rw [Bool.not_eq_true] at hd
      simp only [transferPass, processDir, hd, Bool.false_eq_true, if_false]
      rfl

theorem processFile_events_mono (operation : Op) (dest_allowed : Char → Bool)
    (dest_subdir src_dir : List (List Char)) (st : ExecState) (f : FileInfo) :
    ∃ t, (processFile operation dest_allowed dest_subdir src_dir st f).events =
      st.events ++ t := by
  cases hf : f.transferOk
  · rw [processFile_failure _ _ _ _ _ _ hf]
    exact ⟨_, List.append_assoc st.events _ _⟩
  · rw [processFile_success _ _ _ _ _ _ hf]
    exact ⟨_, List.append_assoc st.events _ _⟩

theorem foldl_events_mono (operation : Op) (dest_allowed : Char → Bool)
    (dest_subdir src_dir : List (List Char)) (files : List FileInfo) (st : ExecState) :
    ∃ t, (files.foldl (processFile operation dest_allowed dest_subdir src_dir) st).events =
      st.events ++ t := by
  induction files generalizing st with
  | nil => exact ⟨[], by simp⟩
  | cons f rest ih =>
    obtain ⟨t1, h1⟩ := processFile_events_mono operation dest_allowed dest_subdir src_dir st f
    obtain ⟨t2, h2⟩ := ih (processFile operation dest_allowed dest_subdir src_dir st f)
    exact ⟨t1 ++ t2, by rw [List.foldl_cons, h2, h1, List.append_assoc]⟩

theorem transferPass_events_mono (operation : Op) (dest_allowed : Char → Bool)
    (dest_root : List (List Char)) (walk : List DirEntry) (st : ExecState) :
    ∃ t, (resultState (transferPass operation dest_allowed dest_root st walk)).events =
      st.events ++ t := by
  induction walk generalizing st with
  | nil => exact ⟨[], by simp [transferPass, resultState]⟩
  | cons d rest ih =>
    by_cases hd : d.mkdirOk = true
    · simp only [transferPass, processDir, hd, if_true]
      obtain ⟨t1, h1⟩ := foldl_events_mono operation dest_allowed (dest_root ++ d.relPath)
        d.relPath d.files st
      obtain ⟨t2, h2⟩ := ih (d.files.foldl
        (processFile operation dest_allowed (dest_root ++ d.relPath) d.relPath) st)
      exact ⟨t1 ++ t2, by rw [h2, h1, List.append_assoc]⟩
    · rw [Bool.not_eq_true] at hd
      simp only [transferPass, processDir, hd, Bool.false_eq_true, if_false, resultState]
      exact ⟨[], by simp⟩

/-- Claim C8: a requested MOVE on a non-writable source root is
force-downgraded to COPY before the transfer pass begins — the switch
notice is emitted and stands before every transfer event — and under the
effective COPY operation no source file is ever removed, whether the run
completes or aborts, so the source files remain present after the run. -/
theorem c8_move_downgraded_to_copy (dest_allowed : Char → Bool)
    (dest_root : List (List Char)) (walk : List DirEntry) :
    (selectOperation Op.move false).1 = Op.copy ∧
    (selectOperation Op.move false).2 = [Event.switchNotice] ∧
    (resultState (runTransfer Op.move false dest_allowed dest_root walk)).removedSources
      = [] ∧
    (resultState (runTransfer Op.move false dest_allowed dest_root walk)).events.head?
      = some Event.switchNotice := by
  refine ⟨rfl, rfl, ?_, ?_⟩
  · exact transferPass_removedSources_copy dest_allowed dest_root walk
      { initState with events := [Event.switchNotice] }
  · obtain ⟨t, ht⟩ := transferPass_events_mono Op.copy dest_allowed dest_root walk
      { initState with events := [Event.switchNotice] }
    show (resultState (transferPass Op.copy dest_allowed dest_root
      { initState with events := [Event.switchNotice] } walk)).events.head?
      = some Event.switchNotice
    rw [ht]
    rfl

theorem scanFiles_acc (files : List FileInfo) (a : Nat × Nat) :
    files.foldl (fun a f => (a.1 + 1, a.2 + (if f.statOk then f.size else 0))) a =
      (a.1 + files.length, a.2 + (files.map fileBytes).sum) := by
  induction files generalizing a with
  | nil => simp
  | cons f rest ih =>
    rw [List.foldl_cons, ih]
    simp only [List.length_cons, List.map_cons, List.sum_cons, fileBytes, Prod.mk.injEq]
    constructor <;> omega

theorem scanLoop_acc (walk : List DirEntry) (a : Nat × Nat) :
    walk.foldl
      (fun acc d =>
        d.files.foldl (fun a f => (a.1 + 1, a.2 + (if f.statOk then f.size else 0))) acc)
      a =
      (a.1 + (walk.map (fun d => d.files.length)).sum,
        a.2 + (walk.map (fun d => (d.files.map fileBytes).sum)).sum) := by
  induction walk generalizing a with
  | nil => simp
  | cons d rest ih =>
    rw [List.foldl_cons, scanFiles_acc, ih]
    simp only [List.map_cons, List.sum_cons, Prod.mk.injEq]
    constructor <;> omega

theorem processFile_bytes_le (operation : Op) (dest_allowed : Char → Bool)
    (dest_subdir src_dir : List (List Char)) (st : ExecState) (f : FileInfo) :
    (processFile operation dest_allowed dest_subdir src_dir st f).transferredBytes ≤
      st.transferredBytes + fileBytes f := by
  cases hf : f.transferOk
  · rw [processFile_failure _ _ _ _ _ _ hf]
    exact Nat.le_add_right _ _
  · rw [processFile_success _ _ _ _ _ _ hf]

theorem foldl_bytes_le (operation : Op) (dest_allowed : Char → Bool)
    (dest_subdir src_dir : List (List Char)) (files : List FileInfo) (st : ExecState) :
    (files.foldl (processFile operation dest_allowed dest_subdir src_dir) st).transferredBytes ≤
      st.transferredBytes + (files.map fileBytes).sum := by
  induction files generalizing st with
  | nil => simp
  | cons f rest ih =>
    rw [List.foldl_cons, List.map_cons, List.sum_cons]
    have h1 := ih (processFile operation dest_allowed dest_subdir src_dir st f)
    have h2 := processFile_bytes_le operation dest_allowed dest_subdir src_dir st f
    omega

theorem filesTrace_bytes_le (operation : Op) (dest_allowed : Char → Bool)
    (dest_subdir src_dir : List (List Char)) (files : List FileInfo) (st st' : ExecState)
    (h : st' ∈ filesTrace operation dest_allowed dest_subdir src_dir st files) :
    st'.transferredBytes ≤ st.transferredBytes + (files.map fileBytes).sum := by
  induction files generalizing st with
  | nil => cases h
  | cons f rest ih =>
    rw [List.map_cons, List.sum_cons]
    rcases List.mem_cons.mp h with rfl | h2
    · have := processFile_bytes_le operation dest_allowed dest_subdir src_dir st f
      omega
    · have h1 := ih (processFile operation dest_allowed dest_subdir src_dir st f) h2
      have h2 := processFile_bytes_le operation dest_allowed dest_subdir src_dir st f
      omega

theorem execTrace_bytes_le (operation : Op) (dest_allowed : Char → Bool)
    (dest_root : List (List Char)) (walk : List DirEntry) (st st' : ExecState)
    (h : st' ∈ execTrace operation dest_allowed dest_root st walk) :
    st'.transferredBytes ≤
      st.transferredBytes + (walk.map (fun d => (d.files.map fileBytes).sum)).sum := by
  induction walk generalizing st with
  | nil => cases h
  | cons d rest ih =>
    rw [List.map_cons, List.sum_cons]
    unfold execTrace at h
    by_cases hd : d.mkdirOk = true
    · simp only [hd, if_true, List.mem_append] at h
      rcases h with h1 | h2
      · have := filesTrace_bytes_le operation dest_allowed (dest_root ++ d.relPath)
          d.relPath d.files st st' h1
        omega
      · have hstep := ih
          (d.files.foldl (processFile operation dest_allowed (dest_root ++ d.relPath) d.relPath) st)
          h2
        have hfold := foldl_bytes_le operation dest_allowed (dest_root ++ d.relPath)
          d.relPath d.files st
        omega
    · rw [Bool.not_eq_true] at hd
      simp only [hd, Bool.false_eq_true, if_false, List.not_mem_nil] at h

/-- Claim C4: the discovery pass's byte total equals the sum over all
discovered files of their sizes, a file whose `stat` fails contributing
0; and at every intermediate point of the transfer pass (the state after
each processed file), the bytes-transferred tally never exceeds that
discovered total.  The source tree is modelled as a snapshot shared by
both passes, the documented assumption of the two-pass design. -/
theorem c4_byte_accounting (operation : Op) (dest_allowed : Char → Bool)
    (dest_root : List (List Char)) (walk : List DirEntry) :
    (scanLoop walk).2 = (walk.map (fun d => (d.files.map fileBytes).sum)).sum ∧
    ∀ st', st' ∈ execTrace operation dest_allowed dest_root initState walk →
      st'.transferredBytes ≤ (scanLoop walk).2 := by
  have hscan : (scanLoop walk).2 =
      (walk.map (fun d => (d.files.map fileBytes).sum)).sum := by
    rw [scanLoop, scanLoop_acc]
    simp
  refine ⟨hscan, fun st' h => ?_⟩
  rw [hscan]
  have := execTrace_bytes_le operation dest_allowed dest_root walk initState st' h
  simpa [initState] using this

/-- Claim C4, witness at a concrete input: the state reached after the
first (failed) file of `c2Walk` carries 0 transferred bytes, below the
discovered total of 12. -/
theorem c4_byte_accounting_witness :
    (⟨1, 0, [Event.errorNotice ([['d']], ['a'])], [], []⟩ : ExecState).transferredBytes ≤
      (scanLoop c2Walk).2 :=
  (c4_byte_accounting Op.copy fat32Allowed [] c2Walk).2
    ⟨1, 0, [Event.errorNotice ([['d']], ['a'])], [], []⟩ (by decide)

theorem processFile_dest_shape (operation : Op) (dest_allowed : Char → Bool)
    (dest_subdir src_dir : List (List Char)) (st : ExecState) (f : FileInfo)
    (e : List (List Char) × SrcId)
    (h : e ∈ (processFile operation dest_allowed dest_subdir src_dir st f).dest) :
    e ∈ st.dest ∨
      e = (dest_subdir ++ [sanitize_filename f.name dest_allowed], (src_dir, f.name)) := by
  cases hf : f.transferOk
  · rw [processFile_failure _ _ _ _ _ _ hf] at h
    exact Or.inl h
  · rw [processFile_success _ _ _ _ _ _ hf] at h
    simp only [destWrite] at h
    rcases List.mem_cons.mp h with rfl | h2
    · exact Or.inr rfl
    · exact Or.inl h2

theorem foldl_dest_shape (operation : Op) (dest_allowed : Char → Bool)
    (dest_subdir src_dir : List (List Char)) (files : List FileInfo) (st : ExecState)
    (e : List (List Char) × SrcId)
    (h : e ∈ (files.foldl (processFile operation dest_allowed dest_subdir src_dir) st).dest) :
    e ∈ st.dest ∨ ∃ f, f ∈ files ∧
      e = (dest_subdir ++ [sanitize_filename f.name dest_allowed], (src_dir, f.name)) := by
  induction files generalizing st with
  | nil => exact Or.inl h
  | cons f rest ih =>
    rw [List.foldl_cons] at h
    rcases ih (processFile operation dest_allowed dest_subdir src_dir st f) h with h1 | ⟨g, hg, he⟩
    · rcases processFile_dest_shape operation dest_allowed dest_subdir src_dir st f e h1
        with h2 | h2
      · exact Or.inl h2
      · exact Or.inr ⟨f, List.mem_cons_self f rest, h2⟩
    · exact Or.inr ⟨g, List.mem_cons_of_mem f hg, he⟩

theorem transferPass_dest_shape (operation : Op) (dest_allowed : Char → Bool)
    (dest_root : List (List Char)) (walk : List DirEntry) (st : ExecState)
    (e : List (List Char) × SrcId)
    (h : e ∈ (resultState (transferPass operation dest_allowed dest_root st walk)).dest) :
    e ∈ st.dest ∨ ∃ d, d ∈ walk ∧ ∃ f, f ∈ d.files ∧
      e = ((dest_root ++ d.relPath) ++ [sanitize_filename f.name dest_allowed],
        (d.relPath, f.name)) := by
  induction walk generalizing st with
  | nil => exact Or.inl h
  | cons d rest ih =>
    by_cases hd : d.mkdirOk = true
    · simp only [transferPass, processDir, hd, if_true] at h
      rcases ih (d.files.foldl
          (processFile operation dest_allowed (dest_root ++ d.relPath) d.relPath) st) h
        with h1 | ⟨d2, hd2, hrest⟩
      · rcases foldl_dest_shape operation dest_allowed (dest_root ++ d.relPath) d.relPath
          d.files st e h1 with h2 | ⟨f, hf, he⟩
        · exact Or.inl h2
        · exact Or.inr ⟨d, List.mem_cons_self d rest, f, hf, he⟩
      · exact Or.inr ⟨d2, List.mem_cons_of_mem d hd2, hrest⟩
    · rw [Bool.not_eq_true] at hd
      simp only [transferPass, processDir, hd, Bool.false_eq_true, if_false, resultState] at h
      exact Or.inl h

/-- Claim C9: directory names never pass through the sanitizer — every
file written to the destination lives at a path whose directory part is
the destination root followed verbatim by the raw relative path of the
source directory that yielded it, even when that path contains characters
illegal under the destination profile; only the final filename component
is sanitized. -/
theorem c9_directories_mirrored_verbatim (operation : Op) (dest_allowed : Char → Bool)
    (dest_root : List (List Char)) (walk : List DirEntry)
    (p : List (List Char)) (s : SrcId)
    (h : (p, s) ∈ (resultState (transferPass operation dest_allowed dest_root
      initState walk)).dest) :
    ∃ d, d ∈ walk ∧ ∃ f, f ∈ d.files ∧
      p = (dest_root ++ d.relPath) ++ [sanitize_filename f.name dest_allowed] ∧
      s = (d.relPath, f.name) := by
  rcases transferPass_dest_shape operation dest_allowed dest_root walk initState (p, s) h
    with h1 | ⟨d, hd, f, hf, he⟩
  · cases h1
  · rw [Prod.mk.injEq] at he
    exact ⟨d, hd, f, hf, he.1, he.2⟩

/-- Claim C9, witness at a concrete input: the one destination entry of
the `c9Walk` run keeps the directory name `d:` verbatim (colon and all)
while its filename was sanitized to `a_`. -/
theorem c9_directories_mirrored_verbatim_witness :
    ∃ d, d ∈ c9Walk ∧ ∃ f, f ∈ d.files ∧
      ([['d', ':'], ['a', '_']] : List (List Char)) =
        (([] : List (List Char)) ++ d.relPath) ++ [sanitize_filename f.name fat32Allowed] ∧
      (([['d', ':']], ['a', '*']) : SrcId) = (d.relPath, f.name) :=
  c9_directories_mirrored_verbatim Op.copy fat32Allowed [] c9Walk
    [['d', ':'], ['a', '_']] ([['d', ':']], ['a', '*']) (by decide)

end FilenameSanitizer
